import Mathlib

/-!
Verification of the TCP connection-pool repository (`internal/tcp/pool.go`,
`internal/tcp/handler.go`) against its natural-language specification.

The development shallowly embeds the program:
* the wire framing (`createTcpBuffer`, `tcpConn.Read`) as pure functions over
  byte lists, with the underlying stream modelled as the finite list of bytes
  it will deliver plus the error its reader reports once they are exhausted;
* the pool (`TcpConnPool`) as a state machine whose atomic steps are the
  lock-protected critical sections of `get`, `release` and `terminate`;
* the lock discipline of `get` as an instrumented control-flow function;
* the saturated-pool wait scenario (one caller queued, the fulfiller worker
  running) as a small labelled transition system;
* the command dispatcher (`handlers` registry, `HandleClientConnection`) as a
  fold over the sequence of decoded packets.

Machine integers are `Nat` with explicit `% 2^32` where Go's `uint32`
arithmetic wraps; Go `int` fields are `Int`.
-/

/-! ## Framing layer (`pool.go`: `createTcpBuffer`, `tcpConn.Read`) -/

/-- Models the `prefixSize` constant (4 bytes). -/
def prefixSize : Nat := 4

/-- Models Go's `uint32(n)` conversion: truncation modulo `2^32`. -/
def toUInt32 (n : Nat) : Nat := n % 4294967296

/-- Models `binary.BigEndian.PutUint32` applied to a `uint32` value: the four
big-endian bytes of `v` (most significant first). -/
def putUint32BE (v : Nat) : List Nat :=
  [v / 16777216 % 256, v / 65536 % 256, v / 256 % 256, v % 256]

/-- Models `binary.BigEndian.Uint32` on a 4-byte slice. -/
def beUint32 : List Nat → Nat
  | [b0, b1, b2, b3] => b0 * 16777216 + b1 * 65536 + b2 * 256 + b3
  | _ => 0

/-- Models `createTcpBuffer(data)`: a buffer of size `prefixSize + len(data)`
whose first four bytes are `uint32(prefixSize+len(data))` big-endian and whose
remainder is `data` copied verbatim. -/
def createTcpBuffer (data : List Nat) : List Nat :=
  putUint32BE (toUInt32 (prefixSize + data.length)) ++ data

/-- The transport errors visible in `tcpConn.Read`: `io.EOF`,
`io.ErrUnexpectedEOF`, the package's `ErrConnectionClosed`, and any other
transport error (identified by a numeric code). -/
inductive NetErr
  | eof
  | unexpectedEOF
  | connectionClosed
  | other (e : Nat)
deriving DecidableEq, Repr

/-- What the underlying `net.Conn` reader reports once its bytes are
exhausted: `io.EOF` for a clean peer close, or some other transport error
(identified by a numeric code). -/
inductive ReadEnd
  | eof
  | fail (e : Nat)
deriving DecidableEq, Repr

/-- The `NetErr` the reader's end condition surfaces as. -/
def ReadEnd.toErr : ReadEnd → NetErr
  | .eof => .eof
  | .fail e => .other e

/-- The error `io.ReadFull` reports when the reader ends after a partial
read: a clean end becomes `io.ErrUnexpectedEOF`, any other error is passed
through. -/
def partialErr : ReadEnd → NetErr
  | .eof => .unexpectedEOF
  | .fail e => .other e

/-- A model of the underlying `net.Conn` read side: the finite list of bytes
it will deliver, and the condition (`term`) its reads report once those bytes
are exhausted. -/
structure ByteStream where
  bytes : List Nat
  term : ReadEnd
deriving DecidableEq, Repr

/-- Models `io.ReadFull(c.conn, buf)` with `len(buf) = n`: delivers exactly
`n` bytes, or reports `io.EOF` when the stream ends with no byte read,
`io.ErrUnexpectedEOF` when a clean end happens after a partial read, and any
other reader error unchanged. -/
def readFull (s : ByteStream) (n : Nat) : Except NetErr (List Nat × ByteStream) :=
  if n ≤ s.bytes.length then
    .ok (s.bytes.take n, ⟨s.bytes.drop n, s.term⟩)
  else if s.bytes.length = 0 then
    .error s.term.toErr
  else
    match s.term with
    | .eof => .error .unexpectedEOF
    | .fail e => .error (.other e)

/-- Models the `switch { case errors.Is(err, io.EOF): return ErrConnectionClosed;
default: return err }` translation in `tcpConn.Read`. -/
def translateEOF : NetErr → NetErr
  | .eof => .connectionClosed
  | e => e

/-- Models the payload length computed in `tcpConn.Read`:
`totalDataLength - prefixSize` in `uint32` arithmetic, which wraps around
rather than going negative. -/
def payloadLen (totalDataLength : Nat) : Nat :=
  (totalDataLength + 4294967296 - prefixSize) % 4294967296

/-- The tail of `tcpConn.Read()` after the payload `io.ReadFull` returns:
translate `io.EOF` to `ErrConnectionClosed`, otherwise return the data. -/
def finishRead : Except NetErr (List Nat × ByteStream) → Except NetErr (List Nat)
  | .error e => .error (translateEOF e)
  | .ok (data, _) => .ok data

/-- The tail of `tcpConn.Read()` after the length-field `io.ReadFull`
returns: translate `io.EOF` to `ErrConnectionClosed`; otherwise decode
`totalDataLength` with `binary.BigEndian.Uint32`, allocate
`totalDataLength - prefixSize` bytes (`uint32` arithmetic), and read them. -/
def readPayload : Except NetErr (List Nat × ByteStream) → Except NetErr (List Nat)
  | .error e => .error (translateEOF e)
  | .ok (hdr, s1) => finishRead (readFull s1 (payloadLen (beUint32 hdr)))

/-- Models `tcpConn.Read()`: read the 4-byte length field with `io.ReadFull`,
then continue with `readPayload`. -/
def tcpRead (s : ByteStream) : Except NetErr (List Nat) :=
  readPayload (readFull s prefixSize)

deriving instance DecidableEq for Except

/-! ## Connection pool (`pool.go`: `TcpConnPool`, `get`, `release`, `terminate`)

Each constructor of `PoolOp` is one lock-protected critical section of the
source. Connections are identified by the `Nat` ids the pool assigns at
creation (`nextId` plays the role of the unique-id source). `held` is the
ghost multiset of connections currently handed out to callers, and `closed`
records the sockets that have been closed; neither is a field of the Go
struct, but both are determined by the history of calls. -/

/-- The pool's bookkeeping state: the keys of `p.idleConns`, the ghost list of
connections currently lent to callers, the ghost list of closed connection
ids, and the `numOpen`/`maxOpenCount`/`maxIdleCount` integer fields of
`TcpConnPool` (Go `int`s, hence `Int`). -/
structure PoolState where
  idle : List Nat
  held : List Nat
  closed : List Nat
  numOpen : Int
  maxOpenCount : Int
  maxIdleCount : Int
  nextId : Nat
deriving DecidableEq, Repr

/-- Models `CreateTcpConnPool`: empty idle map, `numOpen = 0`, the two caps
taken from the configuration. -/
def createPool (maxOpen maxIdle : Int) : PoolState :=
  { idle := [], held := [], closed := [], numOpen := 0,
    maxOpenCount := maxOpen, maxIdleCount := maxIdle, nextId := 0 }

/-- The atomic pool operations. `getIdle c` is `get()` case 1 taking the
arbitrary map element `c`; `getOpen ok` is `get()` case 3 together with the
outcome of the unlocked dial (`ok = false` is a dial failure, which re-locks
and decrements); `release c` and `terminate c` are the corresponding methods
applied to a connection the caller holds. -/
inductive PoolOp
  | getIdle (c : Nat)
  | getOpen (ok : Bool)
  | release (c : Nat)
  | terminate (c : Nat)
deriving DecidableEq, Repr

/-- One atomic pool operation, translated from the source.

* `getIdle c` — `get()` case 1: `delete(p.idleConns, c.id)` and hand `c` out.
* `getOpen ok` — `get()` case 3, reached only when the idle map is empty and
  the case-2 guard `p.maxOpenCount > 0 && p.numOpen >= p.maxOpenCount` is
  false: `p.numOpen++`, dial; on failure `p.numOpen--` (net effect: state
  unchanged), on success a fresh connection is handed out.
* `release c` — if `p.maxIdleCount > 0 && p.maxIdleCount > len(p.idleConns)`
  the connection is stored idle, otherwise `c.conn.Close()` and
  `c.pool.numOpen--`.
* `terminate c` — `tcpConn.conn.Close()` and `delete(p.idleConns, c.id)`;
  the source decrements nothing here.

An operation whose guard does not hold leaves the state unchanged. -/
def applyOp (s : PoolState) : PoolOp → PoolState
  | .getIdle c =>
    if c ∈ s.idle then
      { s with idle := s.idle.erase c, held := c :: s.held }
    else s
  | .getOpen ok =>
    if s.idle.length = 0 ∧ ¬(0 < s.maxOpenCount ∧ s.maxOpenCount ≤ s.numOpen) then
      if ok then
        { s with numOpen := s.numOpen + 1, held := s.nextId :: s.held,
                 nextId := s.nextId + 1 }
      else s
    else s
  | .release c =>
    if c ∈ s.held then
      if 0 < s.maxIdleCount ∧ (s.idle.length : Int) < s.maxIdleCount then
        { s with idle := c :: s.idle, held := s.held.erase c }
      else
        { s with held := s.held.erase c, closed := c :: s.closed,
                 numOpen := s.numOpen - 1 }
    else s
  | .terminate c =>
    if c ∈ s.held then
      { s with held := s.held.erase c, idle := s.idle.erase c,
               closed := c :: s.closed }
    else s

/-- A sequence of atomic pool operations. -/
def runOps (s : PoolState) (ops : List PoolOp) : PoolState :=
  ops.foldl applyOp s

/-- Well-formedness of a pool state: no connection id occurs twice across the
idle map and the lent-out connections, and every live id is below the
fresh-id source. Holds for `createPool` and is preserved by every operation. -/
def GoodState (s : PoolState) : Prop :=
  (s.idle ++ s.held).Nodup ∧ ∀ c ∈ s.idle ++ s.held, c < s.nextId

instance (s : PoolState) : Decidable (GoodState s) := by
  unfold GoodState; infer_instance

/-! ### Lock discipline of `get()` (instrumented control flow) -/

/-- The three exits of `get()`: returning an idle connection (case 1),
blocking on the queued request's delivery channels (case 2), or dialling a
new connection (case 3). -/
inductive GetPath
  | idleGranted (c : Nat)
  | queuedWait
  | dialNew
deriving DecidableEq, Repr

/-- Which exit `get()` takes and whether `p.mu` is still held at that point. -/
structure GetExit where
  path : GetPath
  lockHeld : Bool
deriving DecidableEq, Repr

/-- Models the control flow of `get()` with the mutex state made explicit.
`p.mu.Lock()` runs first; case 1 calls `p.mu.Unlock()` before returning;
case 2 sends the request on `p.requestChan` and blocks on the
`select { case <-req.connChan; case <-req.errChan }` with no `Unlock` on the
path; case 3 runs `p.numOpen++` then `p.mu.Unlock()` before dialling. -/
def getEntry (s : PoolState) : GetExit :=
  match s.idle with
  | c :: _ => ⟨.idleGranted c, false⟩
  | [] =>
    if 0 < s.maxOpenCount ∧ s.maxOpenCount ≤ s.numOpen then
      ⟨.queuedWait, true⟩
    else
      ⟨.dialNew, false⟩

/-! ### The saturated-pool wait scenario (`get` case 2 + `handleConnectionRequest`)

The configuration of claim C1: `maxOpenCount = 1`, the single connection held
by caller 1, caller 2 inside `get()` case 2. By `getEntry`, caller 2 blocks on
the request's channels with `p.mu` still locked, and nothing in its
continuation unlocks before a channel delivers. The fulfiller worker has
dequeued the request and is executing the inner
`select { case <-timeoutChan: ...; default: p.mu.Lock(); ... }` loop. -/

/-- Global state of the wait scenario. `fulAtSelect` is true while the
fulfiller is at its `select`, false once it has entered the `default` branch
and is blocked in `p.mu.Lock()`. `mutexFree` is the pool mutex (held by the
queued caller throughout, since its path never unlocks). `timeoutFired` is
the 3-second `time.After` timer. `errDelivered` / `connDelivered` record a
send on `req.errChan` / `req.connChan`. -/
structure WaitState where
  fulAtSelect : Bool
  mutexFree : Bool
  timeoutFired : Bool
  errDelivered : Bool
  connDelivered : Bool
deriving DecidableEq, Repr

/-- The transitions of the wait scenario.

* `fireTimer` — the 3-second `time.After` timer expires.
* `selectTimeout` — the fulfiller's `select` takes `case <-timeoutChan` (only
  possible once the timer has fired) and sends `ErrConnectionTimeout` on
  `req.errChan`, then leaves the inner loop.
* `selectDefault` — the `select` takes `default` (always enabled) and the
  fulfiller calls `p.mu.Lock()`, blocking while the mutex is held.
* `lockAcquired` — the blocked `p.mu.Lock()` returns because the mutex became
  free; the fulfiller finds no idle connection and no headroom, unlocks, and
  loops back to the `select`. -/
inductive WaitStep : WaitState → WaitState → Prop
  | fireTimer (s : WaitState) :
      s.timeoutFired = false → WaitStep s { s with timeoutFired := true }
  | selectTimeout (s : WaitState) :
      s.fulAtSelect = true → s.timeoutFired = true →
      WaitStep s { s with fulAtSelect := false, errDelivered := true }
  | selectDefault (s : WaitState) :
      s.fulAtSelect = true → WaitStep s { s with fulAtSelect := false }
  | lockAcquired (s : WaitState) :
      s.fulAtSelect = false → s.mutexFree = true →
      WaitStep s { s with fulAtSelect := true }

/-- The scenario's start: fulfiller at its `select`, mutex held by the queued
caller, timer running, nothing delivered. -/
def waitStart : WaitState :=
  { fulAtSelect := true, mutexFree := false, timeoutFired := false,
    errDelivered := false, connDelivered := false }

/-- The state after the fulfiller takes the `default` branch — which the
reference implementation does immediately, long before the 3-second timer can
fire — and blocks in `p.mu.Lock()` on the mutex the queued caller holds. -/
def deadlocked : WaitState :=
  { fulAtSelect := false, mutexFree := false, timeoutFired := false,
    errDelivered := false, connDelivered := false }

/-! ## Command dispatcher (`handler.go`) -/

/-- Models the `Packet` envelope after `json.Unmarshal` of the framed bytes:
a command name and the raw `Data` bytes. -/
structure Packet where
  Command : String
  Data : List Nat
deriving DecidableEq, Repr

/-- Models `HandlerConfig`. `Request` and `Response` hold the current
contents of the stored request/response shape objects (the decode targets);
`Handler` models `Handler(req, res)` as a function from the decoded request
and the previous response contents to the new response contents. The decoded
request value is represented by the raw data bytes. -/
structure HandlerConfig where
  Command : String
  Handler : List Nat → List Nat → List Nat
  Request : List Nat
  Response : List Nat

/-- The `handlers` registry: an association list from command name to its
`HandlerConfig` (the Go map has unique keys; lookups and updates use the
first matching key). -/
def Handlers := List (String × HandlerConfig)

/-- Models `handlers[packet.Command]` lookup. -/
def lookupHandler (hs : Handlers) (cmd : String) : Option HandlerConfig :=
  match hs with
  | [] => none
  | e :: es => if e.1 = cmd then some e.2 else lookupHandler es cmd

/-- Replaces the entry stored under `cmd` (the shape objects the registry
points to are mutated in place in Go; in the value model this is an update of
the stored entry). -/
def setHandler (hs : Handlers) (cmd : String) (cfg : HandlerConfig) : Handlers :=
  match hs with
  | [] => []
  | e :: es => if e.1 = cmd then (e.1, cfg) :: es else e :: setHandler es cmd cfg

/-- Models `RegisterHandler(hc)`: `handlers[hc.Command] = hc`. -/
def registerHandler (hs : Handlers) (cfg : HandlerConfig) : Handlers :=
  match lookupHandler hs cfg.Command with
  | some _ => setHandler hs cfg.Command cfg
  | none => (cfg.Command, cfg) :: hs

/-- One iteration of the `HandleClientConnection` loop body after the packet
envelope has been decoded: look up the handler (`ErrMissingHandler` ends the
session), `json.Unmarshal(packet.Data, handlerCfg.Request)` writes the decoded
request into the stored request shape, `handlerCfg.Handler(handlerCfg.Request,
handlerCfg.Response)` populates the stored response shape, and the response is
marshalled and written back. -/
def dispatchPacket (hs : Handlers) (p : Packet) : Option (Handlers × List Nat) :=
  match lookupHandler hs p.Command with
  | none => none
  | some cfg =>
    let req := p.Data
    let res := cfg.Handler req cfg.Response
    some (setHandler hs p.Command { cfg with Request := req, Response := res }, res)

/-- Models the `HandleClientConnection` receive loop over a sequence of
decoded packets, returning the registry as left when the session ends. -/
def handleClientConnection (hs : Handlers) : List Packet → Handlers
  | [] => hs
  | p :: ps =>
    match dispatchPacket hs p with
    | none => hs
    | some (hs', _) => handleClientConnection hs' ps



/-! ## Theorems: framing layer -/

theorem beUint32_putUint32BE (v : Nat) :
    beUint32 (putUint32BE v) = v % 4294967296 := by
  simp only [beUint32, putUint32BE]
  have h1 : v % (16777216 * 256) = v % 16777216 + 16777216 * (v / 16777216 % 256) :=
    Nat.mod_mul
  have h2 : v % (65536 * 256) = v % 65536 + 65536 * (v / 65536 % 256) :=
    Nat.mod_mul
  have h3 : v % (256 * 256) = v % 256 + 256 * (v / 256 % 256) :=
    Nat.mod_mul
  norm_num at h1 h2 h3
  rw [h1, h2, h3]
  ring

theorem take_putUint32BE (v : Nat) (l : List Nat) :
    (putUint32BE v ++ l).take 4 = putUint32BE v := by
  simp [putUint32BE]

theorem drop_putUint32BE (v : Nat) (l : List Nat) :
    (putUint32BE v ++ l).drop 4 = l := by
  simp [putUint32BE]

theorem readFull_ok (B : List Nat) (t : ReadEnd) (n : Nat) (h : n ≤ B.length) :
    readFull ⟨B, t⟩ n = .ok (B.take n, ⟨B.drop n, t⟩) := by
  unfold readFull
  simp [h]

theorem readFull_err_empty (B : List Nat) (t : ReadEnd) (n : Nat)
    (h1 : ¬ n ≤ B.length) (h2 : B.length = 0) :
    readFull ⟨B, t⟩ n = .error t.toErr := by
  unfold readFull
  simp [h1, h2]
  omega

theorem readFull_err_mid (B : List Nat) (t : ReadEnd) (n : Nat)
    (h1 : ¬ n ≤ B.length) (h2 : B.length ≠ 0) :
    readFull ⟨B, t⟩ n = .error (partialErr t) := by
  unfold readFull
  cases t <;> simp [h1, h2, partialErr]

theorem translateEOF_partialErr (t : ReadEnd) :
    translateEOF (partialErr t) = partialErr t := by
  cases t <;> rfl

/-- Evaluation of `tcpRead` by cases on how much of the stream is available,
with the two `io.ReadFull` calls resolved. -/
theorem tcpRead_eq (B : List Nat) (t : ReadEnd) :
    tcpRead ⟨B, t⟩ =
      if 4 ≤ B.length then
        if payloadLen (beUint32 (B.take 4)) ≤ B.length - 4 then
          .ok ((B.drop 4).take (payloadLen (beUint32 (B.take 4))))
        else if B.length = 4 then .error (translateEOF t.toErr)
        else .error (partialErr t)
      else if B.length = 0 then .error (translateEOF t.toErr)
      else .error (partialErr t) := by
  by_cases h4 : 4 ≤ B.length
  · by_cases h2 : payloadLen (beUint32 (B.take 4)) ≤ B.length - 4
    · have ha : payloadLen (beUint32 (B.take 4)) ≤ (B.drop 4).length := by
        simpa using h2
      simp only [tcpRead, prefixSize]
      rw [readFull_ok B t 4 h4]
      simp only [readPayload]
      rw [readFull_ok (B.drop 4) t (payloadLen (beUint32 (B.take 4))) ha]
      simp only [finishRead]
      rw [if_pos h4, if_pos h2]
    · by_cases h0 : B.length = 4
      · have ha : ¬ payloadLen (beUint32 (B.take 4)) ≤ (B.drop 4).length := by
          simpa using h2
        have hb : (B.drop 4).length = 0 := by
          simp [h0]
        simp only [tcpRead, prefixSize]
        rw [readFull_ok B t 4 h4]
        simp only [readPayload]
        rw [readFull_err_empty (B.drop 4) t (payloadLen (beUint32 (B.take 4))) ha hb]
        simp only [finishRead]
        rw [if_pos h4, if_neg h2, if_pos h0]
      · have ha : ¬ payloadLen (beUint32 (B.take 4)) ≤ (B.drop 4).length := by
          simpa using h2
        have hb : (B.drop 4).length ≠ 0 := by
          simp only [List.length_drop]
          omega
        simp only [tcpRead, prefixSize]
        rw [readFull_ok B t 4 h4]
        simp only [readPayload]
        rw [readFull_err_mid (B.drop 4) t (payloadLen (beUint32 (B.take 4))) ha hb]
        simp only [finishRead]
        rw [translateEOF_partialErr, if_pos h4, if_neg h2, if_neg h0]
  · by_cases h0 : B.length = 0
    · simp only [tcpRead, prefixSize]
      rw [readFull_err_empty B t 4 h4 h0]
      simp only [readPayload]
      rw [if_neg h4, if_pos h0]
    · simp only [tcpRead, prefixSize]
      rw [readFull_err_mid B t 4 h4 h0]
      simp only [readPayload]
      rw [translateEOF_partialErr, if_neg h4, if_neg h0]

theorem payloadLen_roundtrip (L : Nat) (h : L < 4294967296) :
    payloadLen (toUInt32 (prefixSize + L) % 4294967296) = L := by
  unfold payloadLen toUInt32 prefixSize
  omega

/-- C4: on a stream whose length field decodes to 2 (< 4), `tcpConn.Read`
does not fail with a protocol-violation error: it computes the payload length
`2 - 4` by wrap-around `uint32` subtraction, obtaining 4294967294, and reads
that many bytes, succeeding if the stream supplies them. -/
theorem readUnderflowAttemptsHugeRead :
    payloadLen (beUint32 ((0 :: 0 :: 0 :: 2 :: List.replicate 4294967294 55).take 4)) =
      4294967294 ∧
    tcpRead ⟨0 :: 0 :: 0 :: 2 :: List.replicate 4294967294 55, .eof⟩ =
      .ok (List.replicate 4294967294 55) := by
  have htake : (0 :: 0 :: 0 :: 2 :: List.replicate 4294967294 (55 : Nat)).take 4
      = [0, 0, 0, 2] := rfl
  have hdrop : (0 :: 0 :: 0 :: 2 :: List.replicate 4294967294 (55 : Nat)).drop 4
      = List.replicate 4294967294 55 := rfl
  have hdl : payloadLen (beUint32 [0, 0, 0, 2]) = 4294967294 := by decide
  have hlen : (0 :: 0 :: 0 :: 2 :: List.replicate 4294967294 (55 : Nat)).length
      = 4294967298 := by
    rw [List.length_cons, List.length_cons, List.length_cons, List.length_cons,
      List.length_replicate]
  constructor
  · rw [htake, hdl]
  · rw [tcpRead_eq, htake, hdl, hdrop, hlen]
    rw [if_pos (by norm_num), if_pos (by norm_num)]
    rw [List.take_replicate, Nat.min_self]

/-- C5 counterexample: a stream that ends after delivering one byte of the
4-byte length field makes `tcpConn.Read` fail with `io.ErrUnexpectedEOF`
returned unchanged, not with `ErrConnectionClosed`. -/
theorem partialHeaderNotConnectionClosed :
    tcpRead ⟨[0], .eof⟩ = .error .unexpectedEOF ∧
    tcpRead ⟨[0], .eof⟩ ≠ .error .connectionClosed := by
  constructor
  · decide
  · decide

/-- C5 amended: `tcpConn.Read` fails with `ErrConnectionClosed` exactly when
a clean end-of-stream occurs with zero bytes of the pending read delivered —
either the stream is empty at the length-field read, or it is exhausted
exactly at the 4-byte boundary and a positive payload length is announced. A
clean end after a partial length field or partial payload surfaces
`io.ErrUnexpectedEOF`, and any other transport failure is returned
unchanged. -/
theorem readErrorTranslation (s : ByteStream) :
    (tcpRead s = .error .connectionClosed ↔
      s.term = .eof ∧ (s.bytes.length = 0 ∨
        (s.bytes.length = 4 ∧ 0 < payloadLen (beUint32 (s.bytes.take 4))))) ∧
    (tcpRead s = .error .unexpectedEOF ↔
      s.term = .eof ∧ ((0 < s.bytes.length ∧ s.bytes.length < 4) ∨
        (4 < s.bytes.length ∧
          s.bytes.length < 4 + payloadLen (beUint32 (s.bytes.take 4))))) ∧
    (∀ e, s.term = .fail e →
      (tcpRead s = .error (.other e) ↔
        s.bytes.length < 4 + payloadLen (beUint32 (s.bytes.take 4)))) := by
  obtain ⟨B, t⟩ := s
  simp only [tcpRead_eq]
  by_cases h4 : 4 ≤ B.length
  · by_cases h2 : payloadLen (beUint32 (B.take 4)) ≤ B.length - 4
    · rw [if_pos h4, if_pos h2]
      refine ⟨?_, ?_, ?_⟩
      · simp only [reduceCtorEq, false_iff]
        rintro ⟨-, h | ⟨hL, hp⟩⟩ <;> omega
      · simp only [reduceCtorEq, false_iff]
        rintro ⟨-, ⟨ha, hb⟩ | ⟨ha, hb⟩⟩ <;> omega
      · intro e ht
        simp only [reduceCtorEq, false_iff]
        omega
    · by_cases h0 : B.length = 4
      · rw [if_pos h4, if_neg h2, if_pos h0]
        cases t
        · refine ⟨?_, ?_, ?_⟩
          · simp only [ReadEnd.toErr, translateEOF, eq_self_iff_true, true_iff]
            exact ⟨trivial, Or.inr ⟨h0, by omega⟩⟩
          · simp only [ReadEnd.toErr, translateEOF, Except.error.injEq,
              reduceCtorEq, false_iff]
            rintro ⟨-, ⟨ha, hb⟩ | ⟨ha, hb⟩⟩ <;> omega
          · intro e ht
            simp at ht
        · refine ⟨?_, ?_, ?_⟩
          · simp [ReadEnd.toErr, translateEOF]
          · simp [ReadEnd.toErr, translateEOF]
          · intro e ht
            injection ht with he
            subst he
            simp only [ReadEnd.toErr, translateEOF, eq_self_iff_true, true_iff]
            omega
      · rw [if_pos h4, if_neg h2, if_neg h0]
        cases t
        · refine ⟨?_, ?_, ?_⟩
          · simp only [partialErr, Except.error.injEq, reduceCtorEq, false_iff]
            rintro ⟨-, h | ⟨hL, hp⟩⟩ <;> omega
          · simp only [partialErr, eq_self_iff_true, true_iff]
            exact ⟨trivial, Or.inr ⟨by omega, by omega⟩⟩
          · intro e ht
            simp at ht
        · refine ⟨?_, ?_, ?_⟩
          · simp [partialErr]
          · simp [partialErr]
          · intro e ht
            injection ht with he
            subst he
            simp only [partialErr, eq_self_iff_true, true_iff]
            omega
  · by_cases h0 : B.length = 0
    · rw [if_neg h4, if_pos h0]
      cases t
      · refine ⟨?_, ?_, ?_⟩
        · simp only [ReadEnd.toErr, translateEOF, eq_self_iff_true, true_iff]
          exact ⟨trivial, Or.inl h0⟩
        · simp only [ReadEnd.toErr, translateEOF, Except.error.injEq,
            reduceCtorEq, false_iff]
          rintro ⟨-, ⟨ha, hb⟩ | ⟨ha, hb⟩⟩ <;> omega
        · intro e ht
          simp at ht
      · refine ⟨?_, ?_, ?_⟩
        · simp [ReadEnd.toErr, translateEOF]
        · simp [ReadEnd.toErr, translateEOF]
        · intro e ht
          injection ht with he
          subst he
          simp only [ReadEnd.toErr, translateEOF, eq_self_iff_true, true_iff]
          omega
    · rw [if_neg h4, if_neg h0]
      cases t
      · refine ⟨?_, ?_, ?_⟩
        · simp only [partialErr, Except.error.injEq, reduceCtorEq, false_iff]
          rintro ⟨-, h | ⟨hL, hp⟩⟩ <;> omega
        · simp only [partialErr, eq_self_iff_true, true_iff]
          exact ⟨trivial, Or.inl ⟨by omega, by omega⟩⟩
        · intro e ht
          simp at ht
      · refine ⟨?_, ?_, ?_⟩
        · simp [partialErr]
        · simp [partialErr]
        · intro e ht
          injection ht with he
          subst he
          simp only [partialErr, eq_self_iff_true, true_iff]
          omega

theorem putUint32BE_length (v : Nat) : (putUint32BE v).length = 4 := rfl

theorem createTcpBuffer_length (data : List Nat) :
    (createTcpBuffer data).length = 4 + data.length := by
  rw [createTcpBuffer, List.length_append, putUint32BE_length]

/-- C6 amended: for every payload of length below `2^32`, decoding a clean
stream holding exactly `createTcpBuffer payload` returns the payload. -/
theorem framingRoundtrip (data : List Nat) (h : data.length < 4294967296) :
    tcpRead ⟨createTcpBuffer data, .eof⟩ = .ok data := by
  have htake : (createTcpBuffer data).take 4
      = putUint32BE (toUInt32 (prefixSize + data.length)) := by
    rw [createTcpBuffer, take_putUint32BE]
  have hdrop : (createTcpBuffer data).drop 4 = data := by
    rw [createTcpBuffer, drop_putUint32BE]
  have hdl : payloadLen (beUint32 ((createTcpBuffer data).take 4)) = data.length := by
    rw [htake, beUint32_putUint32BE]
    exact payloadLen_roundtrip data.length h
  rw [tcpRead_eq, hdl, hdrop, createTcpBuffer_length]
  rw [if_pos (by omega), if_pos (by omega)]
  rw [List.take_length]

theorem framingRoundtripWitness :
    tcpRead ⟨createTcpBuffer [10, 20, 30], .eof⟩ = .ok [10, 20, 30] :=
  framingRoundtrip [10, 20, 30] (by decide)

/-- C6 counterexample: for the payload of length `2^32` the length field
wraps to 4, so decoding the encoded stream returns the empty payload instead
of the original one. -/
theorem roundtripFailsAtUint32Wrap :
    tcpRead ⟨createTcpBuffer (List.replicate 4294967296 0), .eof⟩ ≠
      .ok (List.replicate 4294967296 0) := by
  have hv : toUInt32 (prefixSize + (List.replicate 4294967296 (0 : Nat)).length) = 4 := by
    rw [List.length_replicate]
    decide
  have htake : (createTcpBuffer (List.replicate 4294967296 (0 : Nat))).take 4
      = putUint32BE 4 := by
    rw [createTcpBuffer, hv, take_putUint32BE]
  have hdrop : (createTcpBuffer (List.replicate 4294967296 (0 : Nat))).drop 4
      = List.replicate 4294967296 0 := by
    rw [createTcpBuffer, hv, drop_putUint32BE]
  have hdl : payloadLen (beUint32 ((createTcpBuffer
      (List.replicate 4294967296 (0 : Nat))).take 4)) = 0 := by
    rw [htake, beUint32_putUint32BE]
    decide
  have hlen : (createTcpBuffer (List.replicate 4294967296 (0 : Nat))).length
      = 4294967300 := by
    rw [createTcpBuffer_length, List.length_replicate]
  rw [tcpRead_eq, hdl, hdrop, hlen]
  rw [if_pos (by norm_num), if_pos (by norm_num)]
  rw [List.take_zero]
  intro hc
  have hc2 : ([] : List Nat) = List.replicate 4294967296 (0 : Nat) := by
    injection hc
  have hlc := congrArg List.length hc2
  rw [List.length_nil, List.length_replicate] at hlc
  exact absurd hlc (by decide)

/-- C10 amended: for every payload with `4 + len(payload) < 2^32`, the first
four bytes of `createTcpBuffer payload` decode (big-endian) to
`4 + len(payload)` and the remaining bytes are the payload. -/
theorem lengthFieldEncoding (data : List Nat)
    (h : prefixSize + data.length < 4294967296) :
    beUint32 ((createTcpBuffer data).take prefixSize) = prefixSize + data.length ∧
    (createTcpBuffer data).drop prefixSize = data := by
  rw [show prefixSize = 4 from rfl] at h ⊢
  constructor
  · rw [createTcpBuffer, take_putUint32BE, beUint32_putUint32BE]
    unfold toUInt32 prefixSize
    omega
  · rw [createTcpBuffer, drop_putUint32BE]

theorem lengthFieldEncodingWitness :
    beUint32 ((createTcpBuffer [7, 8]).take prefixSize) = prefixSize + [7, 8].length ∧
    (createTcpBuffer [7, 8]).drop prefixSize = [7, 8] :=
  lengthFieldEncoding [7, 8] (by decide)

/-- C10 counterexample: for the payload of length `2^32 - 4` the value
`uint32(4 + len(payload))` wraps to 0, so the first four bytes do not decode
to `4 + len(payload)`. -/
theorem lengthFieldWrapsAtUint32 :
    beUint32 ((createTcpBuffer (List.replicate 4294967292 1)).take prefixSize) ≠
      prefixSize + (List.replicate 4294967292 (1 : Nat)).length := by
  have hv : toUInt32 (prefixSize + (List.replicate 4294967292 (1 : Nat)).length) = 0 := by
    rw [List.length_replicate]
    decide
  rw [createTcpBuffer, hv]
  rw [show prefixSize = 4 from rfl]
  rw [take_putUint32BE, beUint32_putUint32BE, List.length_replicate]
  decide

/-! ## Theorems: connection pool -/

theorem applyOp_maxIdleCount (s : PoolState) (op : PoolOp) :
    (applyOp s op).maxIdleCount = s.maxIdleCount := by
  cases op <;> simp only [applyOp] <;> split_ifs <;> rfl

theorem applyOp_idle_cap (s : PoolState) (op : PoolOp)
    (h : (s.idle.length : Int) ≤ s.maxIdleCount) :
    ((applyOp s op).idle.length : Int) ≤ (applyOp s op).maxIdleCount := by
  have herase : ∀ (l : List Nat) (c : Nat), ((l.erase c).length : Int) ≤ l.length :=
    fun l c => by exact_mod_cast List.Sublist.length_le (List.erase_sublist c l)
  cases op with
  | getIdle c =>
    simp only [applyOp]
    split_ifs with h1
    · exact le_trans (herase s.idle c) h
    · exact h
  | getOpen ok =>
    simp only [applyOp]
    split_ifs <;> exact h
  | release c =>
    simp only [applyOp]
    split_ifs with h1 h2
    · show ((c :: s.idle).length : Int) ≤ s.maxIdleCount
      obtain ⟨-, hlt⟩ := h2
      simp only [List.length_cons]
      omega
    · exact h
    · exact h
  | terminate c =>
    simp only [applyOp]
    split_ifs with h1
    · exact le_trans (herase s.idle c) h
    · exact h

theorem runOps_maxIdleCount (s : PoolState) (ops : List PoolOp) :
    (runOps s ops).maxIdleCount = s.maxIdleCount := by
  induction ops generalizing s with
  | nil => rfl
  | cons op ops ih =>
    simp only [runOps, List.foldl_cons]
    rw [show (ops.foldl applyOp (applyOp s op)) = runOps (applyOp s op) ops from rfl]
    rw [ih (applyOp s op), applyOp_maxIdleCount]

/-- C7: for every pool state whose idle map is within the configured
`maxIdleCount` cap, no sequence of pool operations can push the idle map
above the cap: `release` stores a connection only while
`len(idleConns) < maxIdleCount` and closes it otherwise, and the other
operations only remove idle entries. -/
theorem idleCapPreserved (s : PoolState) (ops : List PoolOp)
    (h : (s.idle.length : Int) ≤ s.maxIdleCount) :
    ((runOps s ops).idle.length : Int) ≤ s.maxIdleCount := by
  induction ops generalizing s with
  | nil => exact h
  | cons op ops ih =>
    have h1 := applyOp_idle_cap s op h
    have h2 := ih (applyOp s op) h1
    rw [applyOp_maxIdleCount] at h2
    simp only [runOps, List.foldl_cons]
    exact h2

theorem idleCapPreservedWitness :
    (((runOps (createPool 0 2) [PoolOp.getOpen true, PoolOp.release 0]).idle.length : Int))
      ≤ (createPool 0 2).maxIdleCount :=
  idleCapPreserved (createPool 0 2) [PoolOp.getOpen true, PoolOp.release 0] (by decide)

theorem goodState_applyOp (s : PoolState) (op : PoolOp) (h : GoodState s) :
    GoodState (applyOp s op) := by
  obtain ⟨hnd, hlt⟩ := h
  cases op with
  | getIdle c =>
    simp only [applyOp]
    split_ifs with hc
    · have hperm : (s.idle.erase c ++ c :: s.held).Perm (s.idle ++ s.held) :=
        List.Perm.trans List.perm_middle
          ((List.perm_cons_erase hc).append_right s.held).symm
      refine ⟨?_, ?_⟩
      · show (s.idle.erase c ++ c :: s.held).Nodup
        exact hperm.nodup_iff.mpr hnd
      · show ∀ x ∈ s.idle.erase c ++ c :: s.held, x < s.nextId
        intro c' hc'
        exact hlt c' (hperm.mem_iff.mp hc')
    · exact ⟨hnd, hlt⟩
  | getOpen ok =>
    simp only [applyOp]
    split_ifs with hg hok
    · have hmem : s.nextId ∉ s.idle ++ s.held := fun hmem =>
        absurd (hlt _ hmem) (lt_irrefl _)
      have hperm : (s.idle ++ s.nextId :: s.held).Perm
          (s.nextId :: (s.idle ++ s.held)) := List.perm_middle
      refine ⟨?_, ?_⟩
      · show (s.idle ++ s.nextId :: s.held).Nodup
        exact hperm.nodup_iff.mpr (List.nodup_cons.mpr ⟨hmem, hnd⟩)
      · show ∀ x ∈ s.idle ++ s.nextId :: s.held, x < s.nextId + 1
        intro c' hc'
        rcases List.mem_cons.mp (hperm.mem_iff.mp hc') with h1 | h1
        · rw [h1]
          exact Nat.lt_succ_self _
        · exact Nat.lt_succ_of_lt (hlt _ h1)
    · exact ⟨hnd, hlt⟩
    · exact ⟨hnd, hlt⟩
  | release c =>
    simp only [applyOp]
    split_ifs with h1 h2
    · have hperm : ((c :: s.idle) ++ s.held.erase c).Perm (s.idle ++ s.held) :=
        List.Perm.trans List.perm_middle.symm
          ((List.perm_cons_erase h1).symm.append_left s.idle)
      refine ⟨?_, ?_⟩
      · show ((c :: s.idle) ++ s.held.erase c).Nodup
        exact hperm.nodup_iff.mpr hnd
      · show ∀ x ∈ (c :: s.idle) ++ s.held.erase c, x < s.nextId
        intro c' hc'
        exact hlt c' (hperm.mem_iff.mp hc')
    · have hsub : List.Sublist (s.idle ++ s.held.erase c) (s.idle ++ s.held) :=
        (List.erase_sublist c s.held).append_left s.idle
      exact ⟨hnd.sublist hsub, fun c' hc' => hlt c' (hsub.subset hc')⟩
    · exact ⟨hnd, hlt⟩
  | terminate c =>
    simp only [applyOp]
    split_ifs with h1
    · have hsub : List.Sublist (s.idle.erase c ++ s.held.erase c) (s.idle ++ s.held) :=
        List.Sublist.append (List.erase_sublist c s.idle) (List.erase_sublist c s.held)
      exact ⟨hnd.sublist hsub, fun c' hc' => hlt c' (hsub.subset hc')⟩
    · exact ⟨hnd, hlt⟩

theorem goodState_runOps (s : PoolState) (ops : List PoolOp) (h : GoodState s) :
    GoodState (runOps s ops) := by
  induction ops generalizing s with
  | nil => exact h
  | cons op ops ih =>
    simp only [runOps, List.foldl_cons]
    exact ih (applyOp s op) (goodState_applyOp s op h)

/-- C8: starting from any well-formed pool state (distinct connection ids),
after any sequence of pool operations no connection id is simultaneously in
the idle map and held by a caller: `get` deletes the connection from the idle
map in the same critical section that hands it out, and `release` re-inserts
it only after removing it from the caller. -/
theorem atMostOneOwner (s : PoolState) (h : GoodState s) (ops : List PoolOp) (c : Nat) :
    ¬(c ∈ (runOps s ops).idle ∧ c ∈ (runOps s ops).held) := by
  rintro ⟨h1, h2⟩
  have hnd := (goodState_runOps s ops h).1
  rw [List.nodup_append] at hnd
  exact hnd.2.2 h1 h2

theorem atMostOneOwnerWitness :
    ¬(0 ∈ (runOps (createPool 2 2) [PoolOp.getOpen true, PoolOp.release 0]).idle ∧
      0 ∈ (runOps (createPool 2 2) [PoolOp.getOpen true, PoolOp.release 0]).held) :=
  atMostOneOwner (createPool 2 2) (by decide) [PoolOp.getOpen true, PoolOp.release 0] 0

/-- C2: `terminate` closes the connection's socket without decrementing
`numOpen`. After opening one connection (`numOpen = 1`) and terminating it
(the `SendData` error path), the socket is closed (`closed = [0]`) and no
connection is idle or in use, yet `numOpen` is still 1, so the claimed
invariant `numOpen = |idle| + |in-use|` is broken and the close was not
accompanied by a decrement. -/
theorem terminateSkipsNumOpenDecrement :
    (runOps (createPool 0 2) [PoolOp.getOpen true, PoolOp.terminate 0]).numOpen = 1 ∧
    (runOps (createPool 0 2) [PoolOp.getOpen true, PoolOp.terminate 0]).idle = [] ∧
    (runOps (createPool 0 2) [PoolOp.getOpen true, PoolOp.terminate 0]).held = [] ∧
    (runOps (createPool 0 2) [PoolOp.getOpen true, PoolOp.terminate 0]).closed = [0] := by
  decide

/-- C3: `get()` does not release the pool mutex in the queued-acquisition
path. On a pool with `maxOpenCount = 1`, `numOpen = 1` and an empty idle map
(the single connection is held by another caller), `get()` takes the
queued-wait exit with the lock still held; in general every queued-wait exit
of `get()` keeps the lock held, because the source has no `Unlock` between
`p.mu.Lock()` and the blocking `select` on the request's channels. -/
theorem getQueuedPathHoldsLock :
    getEntry { idle := [], held := [0], closed := [], numOpen := 1,
               maxOpenCount := 1, maxIdleCount := 1, nextId := 1 }
      = ⟨.queuedWait, true⟩ ∧
    ∀ s : PoolState, (getEntry s).path = .queuedWait → (getEntry s).lockHeld = true := by
  constructor
  · decide
  · intro s hp
    rcases s with ⟨idle, held, closed, no, mo, mi, ni⟩
    cases idle with
    | nil =>
      by_cases hg : 0 < mo ∧ mo ≤ no
      · simp [getEntry, hg]
      · simp [getEntry, hg] at hp
    | cons a as =>
      simp [getEntry] at hp

theorem getQueuedPathHoldsLockWitness :
    (getEntry { idle := [], held := [0], closed := [], numOpen := 1,
                maxOpenCount := 1, maxIdleCount := 1, nextId := 1 }).lockHeld = true :=
  getQueuedPathHoldsLock.2
    { idle := [], held := [0], closed := [], numOpen := 1,
      maxOpenCount := 1, maxIdleCount := 1, nextId := 1 } (by decide)

/-- C1: in the saturated-pool scenario (the queued caller blocks on the
request channels while still holding `p.mu`, since the queued path of
`get()` never unlocks), the
fulfiller's `select` takes its always-ready `default` branch immediately —
long before the 3-second timer can fire — and then blocks forever in
`p.mu.Lock()`. From that configuration no execution delivers anything on
`req.errChan` or `req.connChan`: the queued caller never receives
`ErrConnectionTimeout`, at 3 seconds or ever. -/
theorem queuedCallerNeverTimesOut :
    WaitStep waitStart deadlocked ∧
    ∀ s, Relation.ReflTransGen WaitStep deadlocked s →
      s.errDelivered = false ∧ s.connDelivered = false := by
  constructor
  · exact WaitStep.selectDefault waitStart rfl
  · intro s hs
    suffices hinv : s.fulAtSelect = false ∧ s.mutexFree = false ∧
        s.errDelivered = false ∧ s.connDelivered = false by
      exact ⟨hinv.2.2.1, hinv.2.2.2⟩
    induction hs with
    | refl => exact ⟨rfl, rfl, rfl, rfl⟩
    | tail hab hbc ih =>
      obtain ⟨i1, i2, i3, i4⟩ := ih
      cases hbc with
      | fireTimer h1 => exact ⟨i1, i2, i3, i4⟩
      | selectTimeout h1 h2 => simp [i1] at h1
      | selectDefault h1 => simp [i1] at h1
      | lockAcquired h1 h2 => simp [i2] at h2

theorem queuedCallerNeverTimesOutWitness :
    deadlocked.errDelivered = false ∧ deadlocked.connDelivered = false :=
  queuedCallerNeverTimesOut.2 deadlocked Relation.ReflTransGen.refl

/-! ## Theorems: command dispatcher -/

/-- C9 counterexample: one dispatched message overwrites the stored `Request`
shape of the registered entry (the decode target of `json.Unmarshal`), so the
registry's stored entries are not left unchanged. -/
theorem dispatchMutatesStoredRequest :
    (handleClientConnection
        (registerHandler [] ⟨"login_user", fun req _ => req, [], []⟩)
        [⟨"login_user", [1, 2]⟩]).map (fun e => e.2.Request) ≠
      (registerHandler [] ⟨"login_user", fun req _ => req, [], []⟩).map
        (fun e => e.2.Request) := by
  decide

theorem setHandler_map_preserve (hs : Handlers) (cmd : String) (cfg : HandlerConfig)
    (r s : List Nat) (hlk : lookupHandler hs cmd = some cfg) :
    (setHandler hs cmd { cfg with Request := r, Response := s }).map
        (fun e => (e.1, e.2.Command, e.2.Handler))
      = hs.map (fun e => (e.1, e.2.Command, e.2.Handler)) := by
  induction hs with
  | nil => rfl
  | cons e es ih =>
    by_cases hc : e.1 = cmd
    · simp only [lookupHandler, if_pos hc] at hlk
      injection hlk with hcfg
      subst hcfg
      simp only [setHandler, if_pos hc, List.map_cons]
    · simp only [lookupHandler, if_neg hc] at hlk
      simp only [setHandler, if_neg hc, List.map_cons, ih hlk]

/-- C9 amended: processing any sequence of messages leaves the registry's
keys and every entry's `Command` and `Handler` unchanged; the `Request` and
`Response` shape objects of dispatched entries are overwritten with each
message's decoded request and the handler's response. -/
theorem dispatchPreservesCommandsAndHandlers (hs : Handlers) (ps : List Packet) :
    (handleClientConnection hs ps).map (fun e => (e.1, e.2.Command, e.2.Handler))
      = hs.map (fun e => (e.1, e.2.Command, e.2.Handler)) := by
  induction ps generalizing hs with
  | nil => rfl
  | cons p ps ih =>
    cases hlk : lookupHandler hs p.Command with
    | none =>
      have hd : dispatchPacket hs p = none := by
        simp only [dispatchPacket, hlk]
      simp only [handleClientConnection, hd]
    | some cfg =>
      have hd : dispatchPacket hs p = some
          (setHandler hs p.Command
            { cfg with Request := p.Data,
                       Response := cfg.Handler p.Data cfg.Response },
           cfg.Handler p.Data cfg.Response) := by
        simp only [dispatchPacket, hlk]
      simp only [handleClientConnection, hd]
      rw [ih (setHandler hs p.Command
        { cfg with Request := p.Data,
                   Response := cfg.Handler p.Data cfg.Response })]
      exact setHandler_map_preserve hs p.Command cfg p.Data
        (cfg.Handler p.Data cfg.Response) hlk

theorem readErrorTranslationWitness :
    tcpRead ⟨[9], .fail 7⟩ = .error (.other 7) ↔
      ([9] : List Nat).length < 4 + payloadLen (beUint32 (([9] : List Nat).take 4)) :=
  (readErrorTranslation ⟨[9], .fail 7⟩).2.2 7 rfl
